import Mathlib

/-!
Shallow embedding of the analytics core of the `gekkopy` repository
(`src/gekkopy/gekko_client.py` and `src/model/preprocessing.py`).

Numbers are modelled by `ℚ`; note that in this model division by zero
yields `0`, where the original floating-point code yields `inf`/`NaN`.
Sparse (possibly missing) cell values are modelled by `Option`.
-/

namespace Gekkopy

/-- A candle record from `stratCandles` (`start` epoch-seconds index plus the
`stratCandleProps` columns `open`, `high`, `low`, `close`). -/
structure Candle where
  ts : Nat
  open_ : ℚ
  high : ℚ
  low : ℚ
  close : ℚ
deriving DecidableEq

/-- An indicator snapshot from `stratUpdates` (`date` index plus the flattened
named indicator values). -/
structure Indicator where
  ts : Nat
  values : List (String × ℚ)
deriving DecidableEq

/-- A trade action.  In the source this is the string `"buy"` or `"sell"`. -/
inductive Action where
  | buy
  | sell
deriving DecidableEq

/-- A trade event from `trades` (`date` index plus `action`, `amount`,
`balance`). -/
structure Trade where
  ts : Nat
  action : Action
  amount : ℚ
  balance : ℚ
deriving DecidableEq

/-- A completed round trip (`entryAt`/`exitAt` epoch-seconds and the two
balances). -/
structure RoundTrip where
  entryAt : Nat
  exitAt : Nat
  entryBalance : ℚ
  exitBalance : ℚ
deriving DecidableEq

/-- One row of the joined table before the derived statistics are added:
candle OHLC plus the sparse columns attached by the four left joins in
`GekkoClient.backtest` (indicators, trades, round-trip entry/exit balances). -/
structure RawJoint where
  ts : Nat
  candle : Candle
  ind : Option Indicator
  trade : Option Trade
  entryBalance : Option ℚ
  exitBalance : Option ℚ
deriving DecidableEq

instance : Inhabited Candle := ⟨⟨0, 0, 0, 0, 0⟩⟩

instance : Inhabited RawJoint := ⟨⟨0, default, none, none, none, none⟩⟩

/-- Pandas `left.join(right)`: a left join on the index.  Every left row is
kept; it is paired with each right row whose key equals the left row's
timestamp, or with `none` when there is no match.  Duplicate keys on the
right therefore multiply the left row (pandas semantics). -/
def leftJoin (bts : β → Nat) (akey : α → Nat) (attach : β → Option α → β)
    (left : List β) (right : List α) : List β :=
  left.flatMap fun b =>
    match right.filter (fun a => akey a == bts b) with
    | [] => [attach b none]
    | ms => ms.map fun a => attach b (some a)

/-- The candle backbone: one `RawJoint` row per candle, all sparse columns
still empty (`candles` after `set_index("start")`). -/
def joinBase (candles : List Candle) : List RawJoint :=
  candles.map fun c =>
    { ts := c.ts, candle := c, ind := none, trade := none,
      entryBalance := none, exitBalance := none }

/-- `.join(indicators)` -/
def joinInd (rows : List RawJoint) (indicators : List Indicator) : List RawJoint :=
  leftJoin RawJoint.ts Indicator.ts (fun b oi => { b with ind := oi })
    rows indicators

/-- `.join(trades)` -/
def joinTrades (rows : List RawJoint) (trades : List Trade) : List RawJoint :=
  leftJoin RawJoint.ts Trade.ts (fun b ot => { b with trade := ot })
    rows trades

/-- `.join(roundtrips.set_index("entryAt")[["entryBalance"]])` -/
def joinEntry (rows : List RawJoint) (roundtrips : List RoundTrip) : List RawJoint :=
  leftJoin RawJoint.ts RoundTrip.entryAt
    (fun b orr => { b with entryBalance := orr.map RoundTrip.entryBalance })
    rows roundtrips

/-- `.join(roundtrips.set_index("exitAt")[["exitBalance"]])` -/
def joinExit (rows : List RawJoint) (roundtrips : List RoundTrip) : List RawJoint :=
  leftJoin RawJoint.ts RoundTrip.exitAt
    (fun b orr => { b with exitBalance := orr.map RoundTrip.exitBalance })
    rows roundtrips

/-- The join chain of `GekkoClient.backtest`:
`candles.join(indicators).join(trades)
  .join(roundtrips.set_index("entryAt")[["entryBalance"]])
  .join(roundtrips.set_index("exitAt")[["exitBalance"]])`. -/
def joinTables (candles : List Candle) (indicators : List Indicator)
    (trades : List Trade) (roundtrips : List RoundTrip) : List RawJoint :=
  joinExit
    (joinEntry (joinTrades (joinInd (joinBase candles) indicators) trades)
      roundtrips)
    roundtrips

/-- Number of records of `right` whose join key is `t`. -/
def keyCount (akey : α → Nat) (right : List α) (t : Nat) : Nat :=
  right.countP (fun a => akey a == t)

/-- If no two records of `right` share a join key, a left join keeps exactly
the left rows' timestamps, one output row per input row. -/
theorem leftJoin_map_ts_unique (bts : β → Nat) (akey : α → Nat)
    (attach : β → Option α → β) (right : List α)
    (hts : ∀ b oa, bts (attach b oa) = bts b)
    (huniq : ∀ t, keyCount akey right t ≤ 1) :
    ∀ left : List β,
      (leftJoin bts akey attach left right).map bts = left.map bts := by
  intro left
  induction left with
  | nil => rfl
  | cons b bs ih =>
    rw [leftJoin, List.flatMap_cons, List.map_append]
    rw [leftJoin] at ih
    rw [ih]
    have hcount : keyCount akey right (bts b)
        = (right.filter (fun a => akey a == bts b)).length := by
      simp [keyCount, List.countP_eq_length_filter]
    cases hm : right.filter (fun a => akey a == bts b) with
    | nil => simp [hts]
    | cons m ms =>
      have h1 := huniq (bts b)
      rw [hcount, hm] at h1
      have hnil : ms = [] := by
        cases ms with
        | nil => rfl
        | cons y ys => simp at h1
      subst hnil
      simp [hts]

theorem leftJoin_append (bts : β → Nat) (akey : α → Nat)
    (attach : β → Option α → β) (right : List α) (l1 l2 : List β) :
    leftJoin bts akey attach (l1 ++ l2) right
      = leftJoin bts akey attach l1 right ++ leftJoin bts akey attach l2 right := by
  simp [leftJoin]

/-- On a block of rows that all carry the same timestamp `t0`, a left join
multiplies the block length by `max 1 k`, where `k` is the number of right
records keyed `t0`, and all output rows still carry `t0`. -/
theorem leftJoin_const_ts (bts : β → Nat) (akey : α → Nat)
    (attach : β → Option α → β) (right : List α) (t0 : Nat)
    (hts : ∀ b oa, bts (attach b oa) = bts b) :
    ∀ left : List β, (∀ b ∈ left, bts b = t0) →
      (leftJoin bts akey attach left right).length
          = left.length * max 1 (keyCount akey right t0)
        ∧ ∀ r ∈ leftJoin bts akey attach left right, bts r = t0 := by
  intro left
  induction left with
  | nil =>
    intro _
    exact ⟨by simp [leftJoin], by intro r hr; simp [leftJoin] at hr⟩
  | cons b bs ih =>
    intro hall
    have hb : bts b = t0 := hall b (List.mem_cons_self b bs)
    have hbs := ih (fun x hx => hall x (List.mem_cons_of_mem b hx))
    have hcount : keyCount akey right t0
        = (right.filter (fun a => akey a == bts b)).length := by
      simp [keyCount, List.countP_eq_length_filter, hb]
    rw [leftJoin, List.flatMap_cons]
    rw [leftJoin] at hbs
    constructor
    · rw [List.length_append, hbs.1]
      cases hm : right.filter (fun a => akey a == bts b) with
      | nil =>
        have h0 : keyCount akey right t0 = 0 := by rw [hcount, hm]; rfl
        simp [hm, h0]
        ring
      | cons m ms =>
        have h1 : keyCount akey right t0 = ms.length + 1 := by
          rw [hcount, hm]; simp
        have h2 : max 1 (keyCount akey right t0) = ms.length + 1 := by omega
        simp only [hm, List.length_map, List.length_cons, h2]
        ring
    · intro r hr
      rw [List.mem_append] at hr
      rcases hr with hr | hr
      · cases hm : right.filter (fun a => akey a == bts b) with
        | nil =>
          rw [hm] at hr
          simp at hr
          rw [hr, hts, hb]
        | cons m ms =>
          rw [hm] at hr
          rw [List.mem_map] at hr
          obtain ⟨a, _, ha⟩ := hr
          rw [← ha, hts, hb]
      · exact hbs.2 r hr

/-- Per-candle row multiplicity of the full join chain: the number of joint
rows a single candle contributes. -/
def rowMultiplicity (indicators : List Indicator) (trades : List Trade)
    (roundtrips : List RoundTrip) (t : Nat) : Nat :=
  max 1 (keyCount Indicator.ts indicators t)
    * max 1 (keyCount Trade.ts trades t)
    * max 1 (keyCount RoundTrip.entryAt roundtrips t)
    * max 1 (keyCount RoundTrip.exitAt roundtrips t)

theorem joinTables_singleton (c : Candle) (indicators : List Indicator)
    (trades : List Trade) (roundtrips : List RoundTrip) :
    (joinTables [c] indicators trades roundtrips).length
        = rowMultiplicity indicators trades roundtrips c.ts
      ∧ ∀ r ∈ joinTables [c] indicators trades roundtrips, r.ts = c.ts := by
  have hbase : ∀ b ∈ joinBase [c], RawJoint.ts b = c.ts := by
    intro b hb; simp [joinBase] at hb; rw [hb]
  have h1 := leftJoin_const_ts RawJoint.ts Indicator.ts
    (fun b oi => { b with ind := oi }) indicators c.ts (fun b oa => rfl)
    (joinBase [c]) hbase
  have h1a : (joinInd (joinBase [c]) indicators).length
      = (joinBase [c]).length * max 1 (keyCount Indicator.ts indicators c.ts) := h1.1
  have h1b : ∀ r ∈ joinInd (joinBase [c]) indicators, r.ts = c.ts := h1.2
  have h2 := leftJoin_const_ts RawJoint.ts Trade.ts
    (fun b ot => { b with trade := ot }) trades c.ts (fun b oa => rfl)
    (joinInd (joinBase [c]) indicators) h1b
  have h2a : (joinTrades (joinInd (joinBase [c]) indicators) trades).length
      = (joinInd (joinBase [c]) indicators).length
          * max 1 (keyCount Trade.ts trades c.ts) := h2.1
  have h2b : ∀ r ∈ joinTrades (joinInd (joinBase [c]) indicators) trades,
      r.ts = c.ts := h2.2
  have h3 := leftJoin_const_ts RawJoint.ts RoundTrip.entryAt
    (fun b orr => { b with entryBalance := orr.map RoundTrip.entryBalance })
    roundtrips c.ts (fun b oa => rfl)
    (joinTrades (joinInd (joinBase [c]) indicators) trades) h2b
  have h3a : (joinEntry (joinTrades (joinInd (joinBase [c]) indicators) trades)
        roundtrips).length
      = (joinTrades (joinInd (joinBase [c]) indicators) trades).length
          * max 1 (keyCount RoundTrip.entryAt roundtrips c.ts) := h3.1
  have h3b : ∀ r ∈ joinEntry
        (joinTrades (joinInd (joinBase [c]) indicators) trades) roundtrips,
      r.ts = c.ts := h3.2
  have h4 := leftJoin_const_ts RawJoint.ts RoundTrip.exitAt
    (fun b orr => { b with exitBalance := orr.map RoundTrip.exitBalance })
    roundtrips c.ts (fun b oa => rfl)
    (joinEntry (joinTrades (joinInd (joinBase [c]) indicators) trades)
      roundtrips) h3b
  have h4a : (joinTables [c] indicators trades roundtrips).length
      = (joinEntry (joinTrades (joinInd (joinBase [c]) indicators) trades)
            roundtrips).length
          * max 1 (keyCount RoundTrip.exitAt roundtrips c.ts) := h4.1
  have h4b : ∀ r ∈ joinTables [c] indicators trades roundtrips,
      r.ts = c.ts := h4.2
  refine ⟨?_, h4b⟩
  have hlen1 : (joinBase [c]).length = 1 := rfl
  rw [h4a, h3a, h2a, h1a, hlen1, rowMultiplicity]
  ring

theorem joinInd_append (l1 l2 : List RawJoint) (indicators : List Indicator) :
    joinInd (l1 ++ l2) indicators
      = joinInd l1 indicators ++ joinInd l2 indicators :=
  leftJoin_append _ _ _ _ _ _

theorem joinTrades_append (l1 l2 : List RawJoint) (trades : List Trade) :
    joinTrades (l1 ++ l2) trades = joinTrades l1 trades ++ joinTrades l2 trades :=
  leftJoin_append _ _ _ _ _ _

theorem joinEntry_append (l1 l2 : List RawJoint) (roundtrips : List RoundTrip) :
    joinEntry (l1 ++ l2) roundtrips
      = joinEntry l1 roundtrips ++ joinEntry l2 roundtrips :=
  leftJoin_append _ _ _ _ _ _

theorem joinExit_append (l1 l2 : List RawJoint) (roundtrips : List RoundTrip) :
    joinExit (l1 ++ l2) roundtrips
      = joinExit l1 roundtrips ++ joinExit l2 roundtrips :=
  leftJoin_append _ _ _ _ _ _

theorem joinTables_cons (c : Candle) (cs : List Candle)
    (indicators : List Indicator) (trades : List Trade)
    (roundtrips : List RoundTrip) :
    joinTables (c :: cs) indicators trades roundtrips
      = joinTables [c] indicators trades roundtrips
          ++ joinTables cs indicators trades roundtrips := by
  have hbase : joinBase (c :: cs) = joinBase [c] ++ joinBase cs := by
    simp [joinBase]
  rw [joinTables, joinTables, joinTables, hbase, joinInd_append,
    joinTrades_append, joinEntry_append, joinExit_append]

/-- Row count of the full join: each candle contributes
`max 1 kI * max 1 kT * max 1 kE * max 1 kX` rows, where the four counts are
its numbers of matching indicator, trade, entry and exit records. -/
theorem joinTables_length (candles : List Candle) (indicators : List Indicator)
    (trades : List Trade) (roundtrips : List RoundTrip) :
    (joinTables candles indicators trades roundtrips).length
      = (candles.map (fun c =>
          rowMultiplicity indicators trades roundtrips c.ts)).sum := by
  induction candles with
  | nil => rfl
  | cons c cs ih =>
    rw [joinTables_cons, List.length_append, ih,
      (joinTables_singleton c indicators trades roundtrips).1]
    simp

/-- Pandas `Series.ffill()` on a sparse column: each missing entry is replaced
by the value carried forward in `acc` (initially missing). -/
def ffill (acc : Option α) : List (Option α) → List (Option α)
  | [] => []
  | none :: xs => acc :: ffill acc xs
  | some a :: xs => some a :: ffill (some a) xs

/-- Pandas `Series.diff()`: first difference; the first row has no
predecessor and is missing (`NaN`). -/
def diffSeries (l : List ℚ) : List (Option ℚ) :=
  match l with
  | [] => []
  | _ :: xs => none :: (xs.zipWith (fun b a => some (b - a)) l)

/-- Pandas `Series.cummax()`, running state `m` = maximum so far. -/
def cummaxGo (m : ℚ) : List ℚ → List ℚ
  | [] => []
  | x :: xs => max m x :: cummaxGo (max m x) xs

/-- Pandas `Series.cummax()`. -/
def cummax : List ℚ → List ℚ
  | [] => []
  | x :: xs => x :: cummaxGo x xs

/-- The sparse `action` column of the joined frame. -/
def actionCol (rows : List RawJoint) : List (Option Action) :=
  rows.map fun r => r.trade.map Trade.action

/-- The sparse `amount` column of the joined frame. -/
def amountCol (rows : List RawJoint) : List (Option ℚ) :=
  rows.map fun r => r.trade.map Trade.amount

/-- The sparse `balance` column of the joined frame. -/
def balanceCol (rows : List RawJoint) : List (Option ℚ) :=
  rows.map fun r => r.trade.map Trade.balance

/-- `jdf["lastAction"] = jdf.action.ffill()` -/
def lastActionCol (rows : List RawJoint) : List (Option Action) :=
  ffill none (actionCol rows)

/-- `jdf["lastAmount"] = jdf.amount.ffill()` -/
def lastAmountCol (rows : List RawJoint) : List (Option ℚ) :=
  ffill none (amountCol rows)

/-- `jdf["lastBalance"] = jdf.balance.ffill()` -/
def lastBalanceCol (rows : List RawJoint) : List (Option ℚ) :=
  ffill none (balanceCol rows)

/-- The `close` column. -/
def closeCol (rows : List RawJoint) : List ℚ :=
  rows.map fun r => r.candle.close

/-- `jdf["profit"] = (jdf.close / start_price).diff()` (first assignment). -/
def profitRawCol (rows : List RawJoint) (startPrice : ℚ) : List (Option ℚ) :=
  diffSeries ((closeCol rows).map (fun c => c / startPrice))

/-- The row lambda of the second `jdf["profit"]` assignment:
`profit * (1 - short_ratio)` on `buy`, `-profit * short_ratio` on `sell`,
`0` when `lastAction` is still missing. -/
def profitStep (shortRatio : ℚ) (profit : Option ℚ)
    (lastAction : Option Action) : Option ℚ :=
  if lastAction = some Action.buy then profit.map (fun p => p * (1 - shortRatio))
  else if lastAction = some Action.sell then profit.map (fun p => -p * shortRatio)
  else some 0

/-- The final `profit` column. -/
def profitCol (rows : List RawJoint) (startPrice shortRatio : ℚ) :
    List (Option ℚ) :=
  (profitRawCol rows startPrice).zipWith (profitStep shortRatio)
    (lastActionCol rows)

/-- The row lambda of `jdf["currentBalance"]` (`lastBalance` on `sell`, else
`lastAmount * close`) including the trailing `.fillna(report["startBalance"])`:
a missing result becomes `startBalance`. -/
def currentBalanceStep (startBalance : ℚ) (lastAction : Option Action)
    (lastBalance lastAmount : Option ℚ) (close : ℚ) : ℚ :=
  (if lastAction = some Action.sell then lastBalance
   else lastAmount.map (fun m => m * close)).getD startBalance

/-- The `currentBalance` column. -/
def currentBalanceCol (rows : List RawJoint) (startBalance : ℚ) : List ℚ :=
  (List.range rows.length).map fun i =>
    currentBalanceStep startBalance ((lastActionCol rows).getD i none)
      ((lastBalanceCol rows).getD i none) ((lastAmountCol rows).getD i none)
      ((closeCol rows).getD i 0)

/-- `jdf["marketP"] = jdf.close / start_price` -/
def marketPCol (rows : List RawJoint) (startPrice : ℚ) : List ℚ :=
  (closeCol rows).map (fun c => c / startPrice)

/-- `jdf["stratP"] = jdf.currentBalance / start_balance` -/
def stratPCol (rows : List RawJoint) (startBalance : ℚ) : List ℚ :=
  (currentBalanceCol rows startBalance).map (fun b => b / startBalance)

/-- `jdf["marketMax"] = jdf.marketP.cummax()` -/
def marketMaxCol (rows : List RawJoint) (startPrice : ℚ) : List ℚ :=
  cummax (marketPCol rows startPrice)

/-- `jdf["stratMax"] = jdf.stratP.cummax()` -/
def stratMaxCol (rows : List RawJoint) (startBalance : ℚ) : List ℚ :=
  cummax (stratPCol rows startBalance)

/-- `-(1 - p / m)`, the drawdown formula. -/
def drawdown (p m : ℚ) : ℚ := -(1 - p / m)

/-- `jdf["marketDrawdown"] = -(1 - jdf.marketP / jdf.marketMax)` -/
def marketDrawdownCol (rows : List RawJoint) (startPrice : ℚ) : List ℚ :=
  (marketPCol rows startPrice).zipWith drawdown (marketMaxCol rows startPrice)

/-- `jdf["stratDrawdown"] = -(1 - jdf.stratP / jdf.stratMax)` -/
def stratDrawdownCol (rows : List RawJoint) (startBalance : ℚ) : List ℚ :=
  (stratPCol rows startBalance).zipWith drawdown (stratMaxCol rows startBalance)

/-- One row of the fully assembled joint table: the raw joined columns plus
every derived column of `_assemble_joint_df` (`date` repeats the index). -/
structure JointRow where
  raw : RawJoint
  lastAction : Option Action
  lastAmount : Option ℚ
  lastBalance : Option ℚ
  profit : Option ℚ
  currentBalance : ℚ
  marketP : ℚ
  stratP : ℚ
  marketMax : ℚ
  stratMax : ℚ
  marketDrawdown : ℚ
  stratDrawdown : ℚ
  date : Nat
deriving DecidableEq

instance : Inhabited JointRow :=
  ⟨⟨default, none, none, none, none, 0, 0, 0, 0, 0, 0, 0, 0⟩⟩

/-- `GekkoClient._assemble_joint_df(jdf, report, short_ratio)`: attaches all
derived columns to the joined frame.  `startPrice`/`startBalance` are
`report["startPrice"]`/`report["startBalance"]`. -/
def assembleJointDf (rows : List RawJoint)
    (startPrice startBalance shortRatio : ℚ) : List JointRow :=
  (List.range rows.length).map fun i =>
    { raw := rows.getD i default
      lastAction := (lastActionCol rows).getD i none
      lastAmount := (lastAmountCol rows).getD i none
      lastBalance := (lastBalanceCol rows).getD i none
      profit := (profitCol rows startPrice shortRatio).getD i none
      currentBalance := (currentBalanceCol rows startBalance).getD i 0
      marketP := (marketPCol rows startPrice).getD i 0
      stratP := (stratPCol rows startBalance).getD i 0
      marketMax := (marketMaxCol rows startPrice).getD i 0
      stratMax := (stratMaxCol rows startBalance).getD i 0
      marketDrawdown := (marketDrawdownCol rows startPrice).getD i 0
      stratDrawdown := (stratDrawdownCol rows startBalance).getD i 0
      date := (rows.getD i default).ts }

/-- One row of `GekkoClient._profit_per_month`'s result: first/last
`currentBalance` and `close` of a calendar-month bucket and the two derived
fractional returns. -/
structure MonthRow where
  month : Nat
  fcurrentBalance : ℚ
  fclose : ℚ
  lcurrentBalance : ℚ
  lclose : ℚ
  marketProfit : ℚ
  stratProfit : ℚ
deriving DecidableEq

/-- The rows of `jdf` falling into calendar month `k`.  `monthOf` abstracts
the calendar mapping `timestamp → month` used by `pd.Grouper(freq="M")`. -/
def monthBucket (monthOf : Nat → Nat) (jdf : List JointRow) (k : Nat) :
    List JointRow :=
  jdf.filter fun r => monthOf r.raw.ts == k

/-- One output row of `_profit_per_month`: `first`/`last` of the bucket and
`marketProfit = (lclose - fclose) / fclose`,
`stratProfit = (lcurrentBalance - fcurrentBalance) / fcurrentBalance`. -/
def monthRow (monthOf : Nat → Nat) (jdf : List JointRow) (k : Nat) : MonthRow :=
  let g := monthBucket monthOf jdf k
  let f := g.headD default
  let l := g.getLastD default
  { month := k
    fcurrentBalance := f.currentBalance
    fclose := f.raw.candle.close
    lcurrentBalance := l.currentBalance
    lclose := l.raw.candle.close
    marketProfit := (l.raw.candle.close - f.raw.candle.close) / f.raw.candle.close
    stratProfit := (l.currentBalance - f.currentBalance) / f.currentBalance }

/-- `GekkoClient._profit_per_month(jdf)`: one row per distinct calendar month
occurring in `jdf`. -/
def profitPerMonth (monthOf : Nat → Nat) (jdf : List JointRow) : List MonthRow :=
  ((jdf.map fun r => monthOf r.raw.ts).dedup).map (monthRow monthOf jdf)

/-- The analytics part of `GekkoClient.backtest` after the four raw series
are parsed: reads `startPrice` from the first candle's close
(`candles["close"].iloc[0]`, which raises on an empty candle series —
modelled by `none`), joins the series, assembles the joint table and the
monthly profits. -/
def backtestPipeline (monthOf : Nat → Nat) (candles : List Candle)
    (indicators : List Indicator) (trades : List Trade)
    (roundtrips : List RoundTrip) (startBalance shortRatio : ℚ) :
    Option (List JointRow × List MonthRow) :=
  match candles.head? with
  | none => none
  | some c0 =>
    let jdf := assembleJointDf (joinTables candles indicators trades roundtrips)
      c0.close startBalance shortRatio
    some (jdf, profitPerMonth monthOf jdf)

/-- The `while i + window_size < n` loop of
`model.preprocessing.create_windows`, collecting `v[i : i + window_size]`.
`fuel` bounds the number of iterations; `v.length` fuel suffices whenever
`step_size ≥ 1`. -/
def windowsFrom (v : List α) (window_size step_size : Nat) :
    Nat → Nat → List (List α)
  | 0, _ => []
  | fuel + 1, i =>
    if i + window_size < v.length then
      ((v.drop i).take window_size)
        :: windowsFrom v window_size step_size fuel (i + step_size)
    else []

/-- The same loop collecting `t_col[i + window_size - 1]`;
`n` is the row count of the input frame. -/
def targetsFrom (t_col : List ℚ) (n window_size step_size : Nat) :
    Nat → Nat → List ℚ
  | 0, _ => []
  | fuel + 1, i =>
    if i + window_size < n then
      t_col.getD (i + window_size - 1) 0
        :: targetsFrom t_col n window_size step_size fuel (i + step_size)
    else []

/-- `create_windows(df, window_size, step_size)` with no target column:
`v` is the list of rows of `df.values`. -/
def create_windows (v : List α) (window_size step_size : Nat) :
    List (List α) :=
  windowsFrom v window_size step_size v.length 0

/-- `create_windows(df, window_size, step_size, target)`: `v` holds the rows
after the target column is dropped and `t_col` the target column (both have
the row count of `df`). -/
def create_windows_target (v : List α) (t_col : List ℚ)
    (window_size step_size : Nat) : List (List α) × List ℚ :=
  (windowsFrom v window_size step_size v.length 0,
   targetsFrom t_col v.length window_size step_size v.length 0)

/-! ### Generic indexing lemmas -/

theorem getD_map (l : List α) (f : α → β) (d : β) (d0 : α) (i : Nat)
    (h : i < l.length) : (l.map f).getD i d = f (l.getD i d0) := by
  rw [List.getD_eq_getElem _ _ (by simpa using h), List.getD_eq_getElem _ _ h]
  simp

theorem getD_range_map (n : Nat) (f : Nat → β) (d : β) (i : Nat) (h : i < n) :
    ((List.range n).map f).getD i d = f i := by
  rw [List.getD_eq_getElem _ _ (by simpa using h)]
  simp

theorem getD_zipWith (f : α → β → γ) (a : List α) (b : List β) (d : γ)
    (da : α) (db : β) (i : Nat) (ha : i < a.length) (hb : i < b.length) :
    (a.zipWith f b).getD i d = f (a.getD i da) (b.getD i db) := by
  rw [List.getD_eq_getElem _ _ (by simp [List.length_zipWith]; omega),
    List.getD_eq_getElem _ _ ha, List.getD_eq_getElem _ _ hb]
  simp

theorem getD_mem (l : List α) (d : α) (i : Nat) (h : i < l.length) :
    l.getD i d ∈ l := by
  rw [List.getD_eq_getElem _ _ h]
  exact List.getElem_mem _

/-! ### `ffill` lemmas -/

theorem ffill_length (l : List (Option α)) :
    ∀ acc, (ffill acc l).length = l.length := by
  induction l with
  | nil => intro acc; rfl
  | cons x xs ih => intro acc; cases x <;> simp [ffill, ih]

/-- The most recent present value of a sparse column: the first hit scanning
backwards. -/
def mostRecent (l : List (Option α)) : Option α := l.reverse.findSome? id

theorem findSome?_id_append (ys zs : List (Option α)) :
    ((ys ++ zs).findSome? id) = (ys.findSome? id).or (zs.findSome? id) := by
  induction ys with
  | nil => simp
  | cons y ys ih =>
    cases y with
    | none => simpa using ih
    | some a => simp

theorem mostRecent_append_one (ys : List (Option α)) (x : Option α) :
    mostRecent (ys ++ [x]) = x.or (mostRecent ys) := by
  rw [mostRecent, List.reverse_append]
  simp only [List.reverse_singleton, List.singleton_append, mostRecent]
  cases x with
  | none => simp [List.findSome?_cons]
  | some a => simp [List.findSome?_cons]

theorem ffill_getD (l : List (Option α)) :
    ∀ (acc : Option α) (i : Nat), i < l.length →
      (ffill acc l).getD i none = (mostRecent (l.take (i + 1))).or acc := by
  induction l with
  | nil => intro acc i h; simp at h
  | cons x xs ih =>
    intro acc i h
    cases i with
    | zero =>
      cases x with
      | none => simp [ffill, mostRecent, List.findSome?_cons]
      | some a => simp [ffill, mostRecent, List.findSome?_cons]
    | succ j =>
      have hj : j < xs.length := by simpa using h
      have hrw : (x :: xs).take (j + 2) = x :: xs.take (j + 1) := rfl
      have hsnoc : mostRecent (x :: xs.take (j + 1))
          = (mostRecent (xs.take (j + 1))).or x := by
        rw [mostRecent]
        simp only [List.reverse_cons]
        rw [findSome?_id_append]
        cases x with
        | none => simp [mostRecent, List.findSome?_cons]
        | some a => simp [mostRecent, List.findSome?_cons]
      cases x with
      | none =>
        show (ffill acc xs).getD j none = _
        rw [ih acc j hj, hrw, hsnoc]
        simp [Option.or_assoc]
      | some a =>
        show (ffill (some a) xs).getD j none = _
        rw [ih (some a) j hj, hrw, hsnoc]
        simp [Option.or_assoc]

theorem ffill_map (f : α → β) (l : List (Option α)) :
    ∀ acc, ffill (acc.map f) (l.map (Option.map f))
      = (ffill acc l).map (Option.map f) := by
  induction l with
  | nil => intro acc; rfl
  | cons x xs ih =>
    intro acc
    cases x with
    | none => simp [ffill, ih]
    | some a =>
      show Option.map f (some a) :: ffill (Option.map f (some a)) _ = _
      rw [show Option.map f (some a) = some (f a) from rfl]
      simp only [ffill, List.map_cons]
      rw [show some (f a) = (some a).map f from rfl, ih]

theorem ffill_getD_mem (l : List (Option α)) :
    ∀ (acc : Option α) (i : Nat), i < l.length →
      (ffill acc l).getD i none = acc ∨ (ffill acc l).getD i none ∈ l := by
  induction l with
  | nil => intro acc i h; simp at h
  | cons x xs ih =>
    intro acc i h
    cases i with
    | zero =>
      cases x with
      | none => exact Or.inl rfl
      | some a => exact Or.inr (List.mem_cons_self _ _)
    | succ j =>
      have hj : j < xs.length := by simpa using h
      cases x with
      | none =>
        rcases ih acc j hj with h1 | h1
        · exact Or.inl h1
        · exact Or.inr (List.mem_cons_of_mem _ h1)
      | some a =>
        rcases ih (some a) j hj with h1 | h1
        · rw [show (ffill acc (some a :: xs)).getD (j+1) none
            = (ffill (some a) xs).getD j none from rfl, h1]
          exact Or.inr (List.mem_cons_self _ _)
        · exact Or.inr (List.mem_cons_of_mem _ h1)

/-! ### `cummax` lemmas -/

theorem cummaxGo_length (l : List ℚ) : ∀ m, (cummaxGo m l).length = l.length := by
  induction l with
  | nil => intro m; rfl
  | cons x xs ih => intro m; simp [cummaxGo, ih]

theorem cummax_length (l : List ℚ) : (cummax l).length = l.length := by
  cases l with
  | nil => rfl
  | cons x xs => simp [cummax, cummaxGo_length]

theorem cummaxGo_getD_le (l : List ℚ) :
    ∀ (m : ℚ) (i : Nat), i < l.length →
      l.getD i 0 ≤ (cummaxGo m l).getD i 0 ∧ m ≤ (cummaxGo m l).getD i 0 := by
  induction l with
  | nil => intro m i h; simp at h
  | cons x xs ih =>
    intro m i h
    cases i with
    | zero => exact ⟨le_max_right m x, le_max_left m x⟩
    | succ j =>
      have hj : j < xs.length := by simpa using h
      have h1 := ih (max m x) j hj
      exact ⟨h1.1, le_trans (le_max_left m x) h1.2⟩

theorem cummaxGo_getD_mem (l : List ℚ) :
    ∀ (m : ℚ) (i : Nat), i < l.length →
      (cummaxGo m l).getD i 0 = m ∨ (cummaxGo m l).getD i 0 ∈ l := by
  induction l with
  | nil => intro m i h; simp at h
  | cons x xs ih =>
    intro m i h
    cases i with
    | zero =>
      rcases max_choice m x with h1 | h1
      · exact Or.inl h1
      · exact Or.inr (by rw [show (cummaxGo m (x :: xs)).getD 0 0 = max m x from rfl, h1]; exact List.mem_cons_self _ _)
    | succ j =>
      have hj : j < xs.length := by simpa using h
      rcases ih (max m x) j hj with h1 | h1
      · rcases max_choice m x with h2 | h2
        · exact Or.inl (by rw [show (cummaxGo m (x :: xs)).getD (j+1) 0 = (cummaxGo (max m x) xs).getD j 0 from rfl, h1, h2])
        · exact Or.inr (by rw [show (cummaxGo m (x :: xs)).getD (j+1) 0 = (cummaxGo (max m x) xs).getD j 0 from rfl, h1, h2]; exact List.mem_cons_self _ _)
      · exact Or.inr (List.mem_cons_of_mem _ h1)

theorem cummax_getD_le (l : List ℚ) (i : Nat) (h : i < l.length) :
    l.getD i 0 ≤ (cummax l).getD i 0 := by
  cases l with
  | nil => simp at h
  | cons x xs =>
    cases i with
    | zero => exact le_refl x
    | succ j =>
      have hj : j < xs.length := by simpa using h
      exact (cummaxGo_getD_le xs x j hj).1

theorem cummax_getD_mem (l : List ℚ) (i : Nat) (h : i < l.length) :
    (cummax l).getD i 0 ∈ l := by
  cases l with
  | nil => simp at h
  | cons x xs =>
    cases i with
    | zero => exact List.mem_cons_self _ _
    | succ j =>
      have hj : j < xs.length := by simpa using h
      rcases cummaxGo_getD_mem xs x j hj with h1 | h1
      · rw [show (cummax (x :: xs)).getD (j+1) 0 = (cummaxGo x xs).getD j 0 from rfl, h1]
        exact List.mem_cons_self _ _
      · exact List.mem_cons_of_mem _ h1

/-! ### `diffSeries` lemmas -/

theorem diffSeries_length (l : List ℚ) : (diffSeries l).length = l.length := by
  cases l with
  | nil => rfl
  | cons x xs => simp [diffSeries, List.length_zipWith]

theorem diffSeries_getD (l : List ℚ) (i : Nat) (h1 : 1 ≤ i)
    (h2 : i < l.length) :
    (diffSeries l).getD i none = some (l.getD i 0 - l.getD (i - 1) 0) := by
  cases l with
  | nil => simp at h2
  | cons x xs =>
    cases i with
    | zero => omega
    | succ j =>
      have hj : j < xs.length := by simpa using h2
      have hj2 : j < (x :: xs).length := by simp; omega
      show (List.zipWith (fun b a => some (b - a)) xs (x :: xs)).getD j none = _
      rw [getD_zipWith _ _ _ _ 0 0 j hj hj2]
      rfl

/-! ### Column lengths and the row accessor -/

theorem lastActionCol_length (rows : List RawJoint) :
    (lastActionCol rows).length = rows.length := by
  simp [lastActionCol, ffill_length, actionCol]

theorem lastAmountCol_length (rows : List RawJoint) :
    (lastAmountCol rows).length = rows.length := by
  simp [lastAmountCol, ffill_length, amountCol]

theorem lastBalanceCol_length (rows : List RawJoint) :
    (lastBalanceCol rows).length = rows.length := by
  simp [lastBalanceCol, ffill_length, balanceCol]

theorem closeCol_length (rows : List RawJoint) :
    (closeCol rows).length = rows.length := by
  simp [closeCol]

theorem profitRawCol_length (rows : List RawJoint) (sp : ℚ) :
    (profitRawCol rows sp).length = rows.length := by
  simp [profitRawCol, diffSeries_length, closeCol]

theorem profitCol_length (rows : List RawJoint) (sp sr : ℚ) :
    (profitCol rows sp sr).length = rows.length := by
  simp [profitCol, List.length_zipWith, profitRawCol_length, lastActionCol_length]

theorem currentBalanceCol_length (rows : List RawJoint) (sb : ℚ) :
    (currentBalanceCol rows sb).length = rows.length := by
  simp [currentBalanceCol]

theorem marketPCol_length (rows : List RawJoint) (sp : ℚ) :
    (marketPCol rows sp).length = rows.length := by
  simp [marketPCol, closeCol]

theorem stratPCol_length (rows : List RawJoint) (sb : ℚ) :
    (stratPCol rows sb).length = rows.length := by
  simp [stratPCol, currentBalanceCol_length]

theorem marketMaxCol_length (rows : List RawJoint) (sp : ℚ) :
    (marketMaxCol rows sp).length = rows.length := by
  simp [marketMaxCol, cummax_length, marketPCol_length]

theorem stratMaxCol_length (rows : List RawJoint) (sb : ℚ) :
    (stratMaxCol rows sb).length = rows.length := by
  simp [stratMaxCol, cummax_length, stratPCol_length]

theorem assembleJointDf_length (rows : List RawJoint) (sp sb sr : ℚ) :
    (assembleJointDf rows sp sb sr).length = rows.length := by
  simp [assembleJointDf]

/-- Row `i` of the assembled joint table. -/
def rowAt (rows : List RawJoint) (sp sb sr : ℚ) (i : Nat) : JointRow :=
  (assembleJointDf rows sp sb sr).getD i default

theorem rowAt_eq (rows : List RawJoint) (sp sb sr : ℚ) (i : Nat)
    (h : i < rows.length) :
    rowAt rows sp sb sr i =
      { raw := rows.getD i default
        lastAction := (lastActionCol rows).getD i none
        lastAmount := (lastAmountCol rows).getD i none
        lastBalance := (lastBalanceCol rows).getD i none
        profit := (profitCol rows sp sr).getD i none
        currentBalance := (currentBalanceCol rows sb).getD i 0
        marketP := (marketPCol rows sp).getD i 0
        stratP := (stratPCol rows sb).getD i 0
        marketMax := (marketMaxCol rows sp).getD i 0
        stratMax := (stratMaxCol rows sb).getD i 0
        marketDrawdown := (marketDrawdownCol rows sp).getD i 0
        stratDrawdown := (stratDrawdownCol rows sb).getD i 0
        date := (rows.getD i default).ts } :=
  getD_range_map rows.length _ default i h

/-! ### Claim C4: forward-fill -/

/-- **C4.** In every assembled joint table, row `i`'s `lastAction`
(`lastAmount`, `lastBalance`) is the most recent present `action` (`amount`,
`balance`) among rows `j ≤ i` — `mostRecent` of the prefix `rows.take (i+1)`,
which is `none` when no such row exists and never reads a row after `i`. -/
theorem lastCols_forwardFill (rows : List RawJoint) (sp sb sr : ℚ) (i : Nat)
    (h : i < rows.length) :
    (rowAt rows sp sb sr i).lastAction
        = mostRecent ((rows.take (i + 1)).map (fun r => r.trade.map Trade.action))
    ∧ (rowAt rows sp sb sr i).lastAmount
        = mostRecent ((rows.take (i + 1)).map (fun r => r.trade.map Trade.amount))
    ∧ (rowAt rows sp sb sr i).lastBalance
        = mostRecent ((rows.take (i + 1)).map (fun r => r.trade.map Trade.balance)) := by
  rw [rowAt_eq rows sp sb sr i h]
  have hact : (actionCol rows).length = rows.length := by simp [actionCol]
  have hamt : (amountCol rows).length = rows.length := by simp [amountCol]
  have hbal : (balanceCol rows).length = rows.length := by simp [balanceCol]
  refine ⟨?_, ?_, ?_⟩
  · show (lastActionCol rows).getD i none = _
    rw [lastActionCol, ffill_getD _ none i (by rw [hact]; exact h)]
    rw [Option.or_none, actionCol, List.map_take]
  · show (lastAmountCol rows).getD i none = _
    rw [lastAmountCol, ffill_getD _ none i (by rw [hamt]; exact h)]
    rw [Option.or_none, amountCol, List.map_take]
  · show (lastBalanceCol rows).getD i none = _
    rw [lastBalanceCol, ffill_getD _ none i (by rw [hbal]; exact h)]
    rw [Option.or_none, balanceCol, List.map_take]

/-- Concrete data from the spec's scenarios: closes 100, 110, 90 at
timestamps 0, 60, 120, with a single buy trade (amount 1, balance 0) at 60. -/
def sampleRows : List RawJoint :=
  [⟨0, ⟨0, 100, 100, 100, 100⟩, none, none, none, none⟩,
   ⟨60, ⟨60, 110, 110, 110, 110⟩, none, some ⟨60, Action.buy, 1, 0⟩, none, none⟩,
   ⟨120, ⟨120, 90, 90, 90, 90⟩, none, none, none, none⟩]

theorem lastCols_forwardFill_witness :
    2 < sampleRows.length
    ∧ ((rowAt sampleRows 100 100 0 2).lastAction
        = mostRecent ((sampleRows.take 3).map (fun r => r.trade.map Trade.action))
      ∧ (rowAt sampleRows 100 100 0 2).lastAmount
        = mostRecent ((sampleRows.take 3).map (fun r => r.trade.map Trade.amount))
      ∧ (rowAt sampleRows 100 100 0 2).lastBalance
        = mostRecent ((sampleRows.take 3).map (fun r => r.trade.map Trade.balance))) :=
  ⟨by decide, lastCols_forwardFill sampleRows 100 100 0 2 (by decide)⟩

/-! ### Claim C1: currentBalance -/

/-- Forward-fill applied to the joined trade records themselves (proof
device: `action`, `amount` and `balance` are columns of the same sparse
trade records, so their fills are the three projections of this one). -/
def tradeFfill (rows : List RawJoint) : List (Option Trade) :=
  ffill none (rows.map RawJoint.trade)

theorem tradeFfill_length (rows : List RawJoint) :
    (tradeFfill rows).length = rows.length := by
  simp [tradeFfill, ffill_length]

theorem ffill_map_none (f : α → β) (l : List (Option α)) :
    ffill none (l.map (Option.map f)) = (ffill none l).map (Option.map f) := by
  have h := ffill_map f l none
  simpa using h

theorem lastActionCol_eq (rows : List RawJoint) :
    lastActionCol rows = (tradeFfill rows).map (Option.map Trade.action) := by
  have hl : rows.map (fun r => r.trade.map Trade.action)
      = (rows.map RawJoint.trade).map (Option.map Trade.action) := by
    simp [List.map_map]
  rw [lastActionCol, actionCol, tradeFfill, hl, ffill_map_none]

theorem lastAmountCol_eq (rows : List RawJoint) :
    lastAmountCol rows = (tradeFfill rows).map (Option.map Trade.amount) := by
  have hl : rows.map (fun r => r.trade.map Trade.amount)
      = (rows.map RawJoint.trade).map (Option.map Trade.amount) := by
    simp [List.map_map]
  rw [lastAmountCol, amountCol, tradeFfill, hl, ffill_map_none]

theorem lastBalanceCol_eq (rows : List RawJoint) :
    lastBalanceCol rows = (tradeFfill rows).map (Option.map Trade.balance) := by
  have hl : rows.map (fun r => r.trade.map Trade.balance)
      = (rows.map RawJoint.trade).map (Option.map Trade.balance) := by
    simp [List.map_map]
  rw [lastBalanceCol, balanceCol, tradeFfill, hl, ffill_map_none]

theorem closeCol_getD (rows : List RawJoint) (i : Nat) (h : i < rows.length) :
    (closeCol rows).getD i 0 = (rows.getD i default).candle.close := by
  rw [closeCol, getD_map rows _ 0 default i h]

/-- **C1.** In every assembled joint table, `currentBalance` at row `i` is
`lastBalance` when `lastAction` is `sell`, `lastAmount * close` when
`lastAction` is `buy`, and `startBalance` when `lastAction` is still
undefined (the close-price mark-to-market variant of the source). -/
theorem currentBalance_markToMarket (rows : List RawJoint) (sp sb sr : ℚ)
    (i : Nat) (h : i < rows.length) :
    ((rowAt rows sp sb sr i).lastAction = none
        → (rowAt rows sp sb sr i).currentBalance = sb)
    ∧ ((rowAt rows sp sb sr i).lastAction = some Action.sell
        → ∃ b, (rowAt rows sp sb sr i).lastBalance = some b
            ∧ (rowAt rows sp sb sr i).currentBalance = b)
    ∧ ((rowAt rows sp sb sr i).lastAction = some Action.buy
        → ∃ m, (rowAt rows sp sb sr i).lastAmount = some m
            ∧ (rowAt rows sp sb sr i).currentBalance
                = m * (rowAt rows sp sb sr i).raw.candle.close) := by
  rw [rowAt_eq rows sp sb sr i h]
  have hlen : i < (tradeFfill rows).length := by rw [tradeFfill_length]; exact h
  have hla : (lastActionCol rows).getD i none
      = Option.map Trade.action ((tradeFfill rows).getD i none) := by
    rw [lastActionCol_eq]; exact getD_map _ _ none none i hlen
  have hlm : (lastAmountCol rows).getD i none
      = Option.map Trade.amount ((tradeFfill rows).getD i none) := by
    rw [lastAmountCol_eq]; exact getD_map _ _ none none i hlen
  have hlb : (lastBalanceCol rows).getD i none
      = Option.map Trade.balance ((tradeFfill rows).getD i none) := by
    rw [lastBalanceCol_eq]; exact getD_map _ _ none none i hlen
  have hcb : (currentBalanceCol rows sb).getD i 0
      = currentBalanceStep sb ((lastActionCol rows).getD i none)
          ((lastBalanceCol rows).getD i none) ((lastAmountCol rows).getD i none)
          ((closeCol rows).getD i 0) :=
    getD_range_map rows.length _ 0 i h
  cases htf : (tradeFfill rows).getD i none with
  | none =>
    refine ⟨fun _ => ?_, fun hs => ?_, fun hb => ?_⟩
    · show (currentBalanceCol rows sb).getD i 0 = sb
      rw [hcb, hla, hlb, hlm, htf]
      rfl
    · rw [show JointRow.lastAction _ = (lastActionCol rows).getD i none from rfl,
        hla, htf] at hs
      simp at hs
    · rw [show JointRow.lastAction _ = (lastActionCol rows).getD i none from rfl,
        hla, htf] at hb
      simp at hb
  | some t =>
    refine ⟨fun hn => ?_, fun hs => ?_, fun hb => ?_⟩
    · rw [show JointRow.lastAction _ = (lastActionCol rows).getD i none from rfl,
        hla, htf] at hn
      simp at hn
    · refine ⟨t.balance, ?_, ?_⟩
      · show (lastBalanceCol rows).getD i none = some t.balance
        rw [hlb, htf]; rfl
      · show (currentBalanceCol rows sb).getD i 0 = t.balance
        rw [show JointRow.lastAction _ = (lastActionCol rows).getD i none from rfl,
          hla, htf] at hs
        have hact : t.action = Action.sell := by
          simpa using hs
        rw [hcb, hla, hlb, hlm, htf, currentBalanceStep]
        simp [hact]
    · refine ⟨t.amount, ?_, ?_⟩
      · show (lastAmountCol rows).getD i none = some t.amount
        rw [hlm, htf]; rfl
      · show (currentBalanceCol rows sb).getD i 0
            = t.amount * (rows.getD i default).candle.close
        rw [show JointRow.lastAction _ = (lastActionCol rows).getD i none from rfl,
          hla, htf] at hb
        have hact : t.action = Action.buy := by
          simpa using hb
        rw [hcb, hla, hlb, hlm, htf, currentBalanceStep,
          closeCol_getD rows i h]
        simp [hact]

theorem currentBalance_markToMarket_witness :
    1 < sampleRows.length
    ∧ (((rowAt sampleRows 100 100 0 1).lastAction = none
          → (rowAt sampleRows 100 100 0 1).currentBalance = 100)
      ∧ ((rowAt sampleRows 100 100 0 1).lastAction = some Action.sell
          → ∃ b, (rowAt sampleRows 100 100 0 1).lastBalance = some b
              ∧ (rowAt sampleRows 100 100 0 1).currentBalance = b)
      ∧ ((rowAt sampleRows 100 100 0 1).lastAction = some Action.buy
          → ∃ m, (rowAt sampleRows 100 100 0 1).lastAmount = some m
              ∧ (rowAt sampleRows 100 100 0 1).currentBalance
                  = m * (rowAt sampleRows 100 100 0 1).raw.candle.close)) :=
  ⟨by decide, currentBalance_markToMarket sampleRows 100 100 0 1 (by decide)⟩

/-! ### Claim C5: profit -/

/-- **C5.** In every assembled joint table, `profit` at row `i` is the first
difference of `close/startPrice` scaled by `1 - shortRatio` under a `buy`
position, its negation scaled by `shortRatio` under a `sell` position, and
`0` while `lastAction` is still undefined. -/
theorem profit_firstDifference (rows : List RawJoint) (sp sb sr : ℚ)
    (i : Nat) (h : i < rows.length) :
    ((rowAt rows sp sb sr i).lastAction = none
        → (rowAt rows sp sb sr i).profit = some 0)
    ∧ (1 ≤ i → (rowAt rows sp sb sr i).lastAction = some Action.buy
        → (rowAt rows sp sb sr i).profit
            = some (((rows.getD i default).candle.close / sp
                - (rows.getD (i - 1) default).candle.close / sp) * (1 - sr)))
    ∧ (1 ≤ i → (rowAt rows sp sb sr i).lastAction = some Action.sell
        → (rowAt rows sp sb sr i).profit
            = some (-((rows.getD i default).candle.close / sp
                - (rows.getD (i - 1) default).candle.close / sp) * sr)) := by
  rw [rowAt_eq rows sp sb sr i h]
  have hpr : (profitRawCol rows sp).length = rows.length := profitRawCol_length rows sp
  have hlal : (lastActionCol rows).length = rows.length := lastActionCol_length rows
  have hp : (profitCol rows sp sr).getD i none
      = profitStep sr ((profitRawCol rows sp).getD i none)
          ((lastActionCol rows).getD i none) := by
    rw [profitCol]
    exact getD_zipWith _ _ _ none none none i (by rw [hpr]; exact h)
      (by rw [hlal]; exact h)
  have hmap : ((closeCol rows).map (fun c => c / sp)).length = rows.length := by
    rw [List.length_map, closeCol_length]
  have hdiffVal : 1 ≤ i →
      (profitRawCol rows sp).getD i none
        = some ((rows.getD i default).candle.close / sp
            - (rows.getD (i - 1) default).candle.close / sp) := by
    intro h1
    rw [profitRawCol, diffSeries_getD _ i h1 (by rw [hmap]; exact h)]
    have e1 : ((closeCol rows).map (fun c => c / sp)).getD i 0
        = (rows.getD i default).candle.close / sp := by
      rw [getD_map _ _ 0 0 i (by rw [closeCol_length]; exact h),
        closeCol_getD rows i h]
    have e2 : ((closeCol rows).map (fun c => c / sp)).getD (i - 1) 0
        = (rows.getD (i - 1) default).candle.close / sp := by
      rw [getD_map _ _ 0 0 (i - 1) (by rw [closeCol_length]; omega),
        closeCol_getD rows (i - 1) (by omega)]
    rw [e1, e2]
  refine ⟨fun hn => ?_, fun h1 hb => ?_, fun h1 hs => ?_⟩
  · show (profitCol rows sp sr).getD i none = some 0
    rw [hp]
    rw [show JointRow.lastAction _ = (lastActionCol rows).getD i none from rfl] at hn
    rw [hn, profitStep]
    simp
  · show (profitCol rows sp sr).getD i none = _
    rw [hp]
    rw [show JointRow.lastAction _ = (lastActionCol rows).getD i none from rfl] at hb
    rw [hb, hdiffVal h1, profitStep]
    simp
  · show (profitCol rows sp sr).getD i none = _
    rw [hp]
    rw [show JointRow.lastAction _ = (lastActionCol rows).getD i none from rfl] at hs
    rw [hs, hdiffVal h1, profitStep]
    simp
    ring

theorem profit_firstDifference_witness :
    2 < sampleRows.length
    ∧ (((rowAt sampleRows 100 100 0 2).lastAction = none
          → (rowAt sampleRows 100 100 0 2).profit = some 0)
      ∧ (1 ≤ 2 → (rowAt sampleRows 100 100 0 2).lastAction = some Action.buy
          → (rowAt sampleRows 100 100 0 2).profit
              = some (((sampleRows.getD 2 default).candle.close / 100
                  - (sampleRows.getD 1 default).candle.close / 100) * (1 - 0)))
      ∧ (1 ≤ 2 → (rowAt sampleRows 100 100 0 2).lastAction = some Action.sell
          → (rowAt sampleRows 100 100 0 2).profit
              = some (-((sampleRows.getD 2 default).candle.close / 100
                  - (sampleRows.getD 1 default).candle.close / 100) * 0))) :=
  ⟨by decide, profit_firstDifference sampleRows 100 100 0 2 (by decide)⟩

/-! ### Claim C6: drawdowns -/

theorem drawdown_le_zero_of_nonneg (p m : ℚ) (hp : 0 ≤ p) (hpm : p ≤ m) :
    -1 ≤ drawdown p m ∧ drawdown p m ≤ 0 := by
  rcases eq_or_lt_of_le (le_trans hp hpm) with hm | hm
  · have hp0 : p = 0 := le_antisymm (hm ▸ hpm) hp
    rw [drawdown, hp0, ← hm]
    norm_num
  · have h1 : p / m ≤ 1 := (div_le_one hm).mpr hpm
    have h2 : 0 ≤ p / m := div_nonneg hp (le_of_lt hm)
    rw [drawdown]
    constructor <;> linarith

theorem marketPCol_nonneg (rows : List RawJoint) (sp : ℚ) (hsp : 0 ≤ sp)
    (hclose : ∀ rr ∈ rows, 0 ≤ rr.candle.close) :
    ∀ x ∈ marketPCol rows sp, 0 ≤ x := by
  intro x hx
  rw [marketPCol] at hx
  rw [List.mem_map] at hx
  obtain ⟨c, hc, rfl⟩ := hx
  rw [closeCol, List.mem_map] at hc
  obtain ⟨rr, hrr, rfl⟩ := hc
  exact div_nonneg (hclose rr hrr) hsp

theorem currentBalanceCol_nonneg (rows : List RawJoint) (sb : ℚ)
    (hsb : 0 ≤ sb) (hclose : ∀ rr ∈ rows, 0 ≤ rr.candle.close)
    (htrade : ∀ rr ∈ rows, ∀ t, rr.trade = some t → 0 ≤ t.amount ∧ 0 ≤ t.balance)
    (i : Nat) (h : i < rows.length) :
    0 ≤ (currentBalanceCol rows sb).getD i 0 := by
  rw [currentBalanceCol, getD_range_map rows.length _ 0 i h, currentBalanceStep]
  by_cases hla : (lastActionCol rows).getD i none = some Action.sell
  · rw [if_pos hla]
    cases hlb : (lastBalanceCol rows).getD i none with
    | none => exact hsb
    | some b =>
      rw [lastBalanceCol] at hlb
      have hmem := ffill_getD_mem (balanceCol rows) none i
        (by simp [balanceCol]; exact h)
      rw [hlb] at hmem
      rcases hmem with h1 | h1
      · exact absurd h1 (by simp)
      · rw [balanceCol, List.mem_map] at h1
        obtain ⟨rr, hrr, hb⟩ := h1
        rw [Option.map_eq_some'] at hb
        obtain ⟨t, ht, hb⟩ := hb
        rw [show (some b).getD sb = b from rfl]
        rw [← hb]
        exact (htrade rr hrr t ht).2
  · rw [if_neg hla]
    cases hlm : (lastAmountCol rows).getD i none with
    | none => exact hsb
    | some m =>
      rw [lastAmountCol] at hlm
      have hmem := ffill_getD_mem (amountCol rows) none i
        (by simp [amountCol]; exact h)
      rw [hlm] at hmem
      have hm : 0 ≤ m := by
        rcases hmem with h1 | h1
        · exact absurd h1 (by simp)
        · rw [amountCol, List.mem_map] at h1
          obtain ⟨rr, hrr, hb⟩ := h1
          rw [Option.map_eq_some'] at hb
          obtain ⟨t, ht, hb⟩ := hb
          rw [← hb]
          exact (htrade rr hrr t ht).1
      have hc : 0 ≤ (closeCol rows).getD i 0 := by
        rw [closeCol_getD rows i h]
        exact hclose _ (getD_mem rows default i h)
      show 0 ≤ ((some m).map (fun m => m * (closeCol rows).getD i 0)).getD sb
      rw [show ((some m).map (fun m => m * (closeCol rows).getD i 0)).getD sb
          = m * (closeCol rows).getD i 0 from rfl]
      exact mul_nonneg hm hc

theorem stratPCol_nonneg (rows : List RawJoint) (sb : ℚ) (hsb : 0 ≤ sb)
    (hclose : ∀ rr ∈ rows, 0 ≤ rr.candle.close)
    (htrade : ∀ rr ∈ rows, ∀ t, rr.trade = some t → 0 ≤ t.amount ∧ 0 ≤ t.balance) :
    ∀ x ∈ stratPCol rows sb, 0 ≤ x := by
  intro x hx
  rw [stratPCol, List.mem_map] at hx
  obtain ⟨cb, hcb, rfl⟩ := hx
  rw [currentBalanceCol, List.mem_map] at hcb
  obtain ⟨i, hi, rfl⟩ := hcb
  rw [List.mem_range] at hi
  have h1 := currentBalanceCol_nonneg rows sb hsb hclose htrade i hi
  rw [currentBalanceCol, getD_range_map rows.length _ 0 i hi] at h1
  exact div_nonneg h1 hsb

/-- **C6 (amended).** Whenever `startPrice` and `startBalance` are positive
and all closes, trade amounts and trade balances are non-negative, both
drawdowns of every assembled row are `-(1 - P/Max)` and lie in `[-1, 0]`.
Without the non-negativity assumptions the drawdowns can be positive (see
the counterexample). -/
theorem drawdown_bounds (rows : List RawJoint) (sp sb sr : ℚ) (i : Nat)
    (h : i < rows.length) (hsp : 0 < sp) (hsb : 0 < sb)
    (hclose : ∀ rr ∈ rows, 0 ≤ rr.candle.close)
    (htrade : ∀ rr ∈ rows, ∀ t, rr.trade = some t → 0 ≤ t.amount ∧ 0 ≤ t.balance) :
    (rowAt rows sp sb sr i).marketDrawdown
        = -(1 - (rowAt rows sp sb sr i).marketP / (rowAt rows sp sb sr i).marketMax)
    ∧ (rowAt rows sp sb sr i).stratDrawdown
        = -(1 - (rowAt rows sp sb sr i).stratP / (rowAt rows sp sb sr i).stratMax)
    ∧ (-1 ≤ (rowAt rows sp sb sr i).marketDrawdown
        ∧ (rowAt rows sp sb sr i).marketDrawdown ≤ 0)
    ∧ (-1 ≤ (rowAt rows sp sb sr i).stratDrawdown
        ∧ (rowAt rows sp sb sr i).stratDrawdown ≤ 0) := by
  rw [rowAt_eq rows sp sb sr i h]
  have hmplen : i < (marketPCol rows sp).length := by
    rw [marketPCol_length]; exact h
  have hsplen : i < (stratPCol rows sb).length := by
    rw [stratPCol_length]; exact h
  have hmdd : (marketDrawdownCol rows sp).getD i 0
      = drawdown ((marketPCol rows sp).getD i 0) ((marketMaxCol rows sp).getD i 0) :=
    getD_zipWith _ _ _ 0 0 0 i hmplen (by rw [marketMaxCol_length]; exact h)
  have hsdd : (stratDrawdownCol rows sb).getD i 0
      = drawdown ((stratPCol rows sb).getD i 0) ((stratMaxCol rows sb).getD i 0) :=
    getD_zipWith _ _ _ 0 0 0 i hsplen (by rw [stratMaxCol_length]; exact h)
  have hmp0 : 0 ≤ (marketPCol rows sp).getD i 0 :=
    marketPCol_nonneg rows sp (le_of_lt hsp) hclose _ (getD_mem _ 0 i hmplen)
  have hmple : (marketPCol rows sp).getD i 0 ≤ (marketMaxCol rows sp).getD i 0 := by
    rw [marketMaxCol]
    exact cummax_getD_le _ i hmplen
  have hsp0 : 0 ≤ (stratPCol rows sb).getD i 0 :=
    stratPCol_nonneg rows sb (le_of_lt hsb) hclose htrade _ (getD_mem _ 0 i hsplen)
  have hsple : (stratPCol rows sb).getD i 0 ≤ (stratMaxCol rows sb).getD i 0 := by
    rw [stratMaxCol]
    exact cummax_getD_le _ i hsplen
  refine ⟨by rw [hmdd]; rfl, by rw [hsdd]; rfl, ?_, ?_⟩
  · rw [show JointRow.marketDrawdown _ = (marketDrawdownCol rows sp).getD i 0 from rfl,
      hmdd]
    exact drawdown_le_zero_of_nonneg _ _ hmp0 hmple
  · rw [show JointRow.stratDrawdown _ = (stratDrawdownCol rows sb).getD i 0 from rfl,
      hsdd]
    exact drawdown_le_zero_of_nonneg _ _ hsp0 hsple

theorem drawdown_bounds_witness :
    (2 < sampleRows.length ∧ (0 : ℚ) < 100
      ∧ (∀ rr ∈ sampleRows, 0 ≤ rr.candle.close)
      ∧ (∀ rr ∈ sampleRows, ∀ t, rr.trade = some t
          → 0 ≤ t.amount ∧ 0 ≤ t.balance))
    ∧ ((rowAt sampleRows 100 100 0 2).marketDrawdown
        = -(1 - (rowAt sampleRows 100 100 0 2).marketP
              / (rowAt sampleRows 100 100 0 2).marketMax)
      ∧ (rowAt sampleRows 100 100 0 2).stratDrawdown
        = -(1 - (rowAt sampleRows 100 100 0 2).stratP
              / (rowAt sampleRows 100 100 0 2).stratMax)
      ∧ (-1 ≤ (rowAt sampleRows 100 100 0 2).marketDrawdown
          ∧ (rowAt sampleRows 100 100 0 2).marketDrawdown ≤ 0)
      ∧ (-1 ≤ (rowAt sampleRows 100 100 0 2).stratDrawdown
          ∧ (rowAt sampleRows 100 100 0 2).stratDrawdown ≤ 0)) :=
  ⟨⟨by decide, by decide, by decide, by decide⟩,
    drawdown_bounds sampleRows 100 100 0 2 (by decide) (by decide) (by decide)
      (by decide) (by decide)⟩

/-- Two candles with negative closes (-1 then -2), no trades: a degenerate
input on which the drawdown formula turns positive. -/
def negRows : List RawJoint :=
  [⟨0, ⟨0, -1, -1, -1, -1⟩, none, none, none, none⟩,
   ⟨60, ⟨60, -2, -2, -2, -2⟩, none, none, none, none⟩]

/-- **C6 (counterexample).** With `startPrice = 1` and closes `-1, -2`, the
running maximum of `marketP` is `-1` and the drawdown at row 1 is
`-(1 - (-2)/(-1)) = 1 > 0`: the unconditional claim `marketDrawdown[i] ≤ 0`
fails on the code. -/
theorem drawdown_positive_counterexample :
    (rowAt negRows 1 1 0 1).marketDrawdown = 1
      ∧ ¬ (rowAt negRows 1 1 0 1).marketDrawdown ≤ 0 := by
  have hmp : marketPCol negRows 1 = [-1, -2] := by
    norm_num [marketPCol, closeCol, negRows]
  have hmm : marketMaxCol negRows 1 = [-1, -1] := by
    rw [marketMaxCol, hmp]
    show [(-1 : ℚ), max (-1) (-2)] = [-1, -1]
    rw [max_eq_left (by norm_num : (-2 : ℚ) ≤ -1)]
  have hval : (rowAt negRows 1 1 0 1).marketDrawdown = 1 := by
    rw [rowAt_eq negRows 1 1 0 1 (by norm_num [negRows])]
    show (marketDrawdownCol negRows 1).getD 1 0 = 1
    rw [marketDrawdownCol, hmp, hmm]
    show drawdown (-2) (-1) = 1
    rw [drawdown]
    norm_num
  exact ⟨hval, by rw [hval]; norm_num⟩

/-! ### Claims C3 and C9: the temporal join -/

/-- **C3 (amended).** Provided no source series contains two records with the
same join timestamp (for round trips: among entry timestamps and among exit
timestamps), the joint table has exactly one row per candle, with exactly
the candle timestamps in order. -/
theorem join_preserves_candles (candles : List Candle)
    (indicators : List Indicator) (trades : List Trade)
    (roundtrips : List RoundTrip)
    (hI : ∀ u, keyCount Indicator.ts indicators u ≤ 1)
    (hT : ∀ u, keyCount Trade.ts trades u ≤ 1)
    (hE : ∀ u, keyCount RoundTrip.entryAt roundtrips u ≤ 1)
    (hX : ∀ u, keyCount RoundTrip.exitAt roundtrips u ≤ 1) :
    (joinTables candles indicators trades roundtrips).length = candles.length
    ∧ (joinTables candles indicators trades roundtrips).map RawJoint.ts
        = candles.map Candle.ts := by
  have e0 : (joinBase candles).map RawJoint.ts = candles.map Candle.ts := by
    simp [joinBase]
  have e1 : (joinInd (joinBase candles) indicators).map RawJoint.ts
      = (joinBase candles).map RawJoint.ts :=
    leftJoin_map_ts_unique RawJoint.ts Indicator.ts
      (fun b oi => { b with ind := oi }) indicators (fun b oa => rfl) hI
      (joinBase candles)
  have e2 : (joinTrades (joinInd (joinBase candles) indicators) trades).map
        RawJoint.ts
      = (joinInd (joinBase candles) indicators).map RawJoint.ts :=
    leftJoin_map_ts_unique RawJoint.ts Trade.ts
      (fun b ot => { b with trade := ot }) trades (fun b oa => rfl) hT
      (joinInd (joinBase candles) indicators)
  have e3 : (joinEntry (joinTrades (joinInd (joinBase candles) indicators)
          trades) roundtrips).map RawJoint.ts
      = (joinTrades (joinInd (joinBase candles) indicators) trades).map
          RawJoint.ts :=
    leftJoin_map_ts_unique RawJoint.ts RoundTrip.entryAt
      (fun b orr => { b with entryBalance := orr.map RoundTrip.entryBalance })
      roundtrips (fun b oa => rfl) hE
      (joinTrades (joinInd (joinBase candles) indicators) trades)
  have e4 : (joinTables candles indicators trades roundtrips).map RawJoint.ts
      = (joinEntry (joinTrades (joinInd (joinBase candles) indicators) trades)
          roundtrips).map RawJoint.ts :=
    leftJoin_map_ts_unique RawJoint.ts RoundTrip.exitAt
      (fun b orr => { b with exitBalance := orr.map RoundTrip.exitBalance })
      roundtrips (fun b oa => rfl) hX
      (joinEntry (joinTrades (joinInd (joinBase candles) indicators) trades)
        roundtrips)
  have emap : (joinTables candles indicators trades roundtrips).map RawJoint.ts
      = candles.map Candle.ts := by
    rw [e4, e3, e2, e1, e0]
  refine ⟨?_, emap⟩
  have := congrArg List.length emap
  simpa using this

/-- Witness data: two candles, one indicator snapshot, one trade and one
round trip, all with pairwise distinct timestamps per series. -/
def wCandles : List Candle := [⟨0, 100, 100, 100, 100⟩, ⟨60, 110, 110, 110, 110⟩]

def wInds : List Indicator := [⟨60, []⟩]

def wTrades : List Trade := [⟨60, Action.buy, 1, 0⟩]

def wRts : List RoundTrip := [⟨60, 120, 100, 110⟩]

theorem join_preserves_candles_witness :
    ((∀ u, keyCount Indicator.ts wInds u ≤ 1)
      ∧ (∀ u, keyCount Trade.ts wTrades u ≤ 1)
      ∧ (∀ u, keyCount RoundTrip.entryAt wRts u ≤ 1)
      ∧ (∀ u, keyCount RoundTrip.exitAt wRts u ≤ 1))
    ∧ ((joinTables wCandles wInds wTrades wRts).length = wCandles.length
      ∧ (joinTables wCandles wInds wTrades wRts).map RawJoint.ts
          = wCandles.map Candle.ts) :=
  ⟨⟨fun u => le_trans (List.countP_le_length _) (by decide),
    fun u => le_trans (List.countP_le_length _) (by decide),
    fun u => le_trans (List.countP_le_length _) (by decide),
    fun u => le_trans (List.countP_le_length _) (by decide)⟩,
   join_preserves_candles wCandles wInds wTrades wRts
    (fun u => le_trans (List.countP_le_length _) (by decide))
    (fun u => le_trans (List.countP_le_length _) (by decide))
    (fun u => le_trans (List.countP_le_length _) (by decide))
    (fun u => le_trans (List.countP_le_length _) (by decide))⟩

/-- One candle at timestamp 0 and two trades that share timestamp 0. -/
def oneCandle : List Candle := [⟨0, 1, 1, 1, 1⟩]

def dupTrades : List Trade := [⟨0, Action.buy, 1, 1⟩, ⟨0, Action.sell, 1, 1⟩]

/-- **C3 (counterexample).** With duplicate trade timestamps the joint table
has 2 rows for 1 candle: the unqualified row-count invariant fails. -/
theorem join_rowCount_counterexample :
    (joinTables oneCandle [] dupTrades []).length = 2
      ∧ oneCandle.length = 1 := by
  decide

/-- **C9 (counterexample).** The same duplicated input raises no error: the
join simply returns a table with the candle's timestamp duplicated, so the
claimed `DuplicateTimestampError` does not exist in the code. -/
theorem duplicate_timestamps_no_error_counterexample :
    (joinTables oneCandle [] dupTrades []).map RawJoint.ts = [0, 0] := by
  decide

/-- **C9 (amended).** The join performs no duplicate-timestamp validation:
it is total, and every candle contributes `max 1 kI * max 1 kT * max 1 kE *
max 1 kX` rows, where the `k`s count the records of each series sharing the
candle's timestamp — duplicated event timestamps duplicate candle rows
instead of aborting. -/
theorem join_total_row_multiplicity (candles : List Candle)
    (indicators : List Indicator) (trades : List Trade)
    (roundtrips : List RoundTrip) :
    (joinTables candles indicators trades roundtrips).length
      = (candles.map (fun c =>
          rowMultiplicity indicators trades roundtrips c.ts)).sum :=
  joinTables_length candles indicators trades roundtrips

/-! ### Claim C2: degenerate baselines -/

/-- **C2 (counterexample).** With `startPrice = 0` the calculator still
returns a full 3-row joint table on the sample input — there is no
`DegenerateBaselineError` and no abort in the code (the floating-point
original silently fills the normalized ratios with `inf`/`NaN`). -/
theorem degenerate_baseline_counterexample :
    (assembleJointDf sampleRows 0 100 0).length = 3 := by
  decide

/-- **C2 (amended).** The calculator performs no validation of `startPrice`
or `startBalance`: for every input, including zero or negative baselines, it
returns a joint table with exactly one row per input row. -/
theorem no_baseline_validation (rows : List RawJoint) (sp sb sr : ℚ) :
    (assembleJointDf rows sp sb sr).length = rows.length :=
  assembleJointDf_length rows sp sb sr

/-! ### Claim C8: empty candle series -/

/-- **C8 (counterexample).** On an empty candle series the pipeline does not
return an empty joint table and empty monthly table: reading the first
candle's close for `startPrice` (`candles["close"].iloc[0]`) fails, modelled
by `none`. -/
theorem empty_candles_counterexample :
    backtestPipeline (fun t => t) [] [] [] [] 100 0 = none
      ∧ backtestPipeline (fun t => t) [] [] [] [] 100 0 ≠ some ([], []) := by
  refine ⟨rfl, ?_⟩
  rw [show backtestPipeline (fun t => t) [] [] [] [] 100 0 = none from rfl]
  simp

/-- **C8 (amended).** For every further input, the pipeline run on an empty
candle series fails while reading the first candle's close for `startPrice`
(modelled by `none`) instead of returning empty tables. -/
theorem empty_candles_pipeline_fails (monthOf : Nat → Nat)
    (indicators : List Indicator) (trades : List Trade)
    (roundtrips : List RoundTrip) (sb sr : ℚ) :
    backtestPipeline monthOf [] indicators trades roundtrips sb sr = none :=
  rfl

/-! ### Claim C7: monthly profits -/

/-- **C7.** Every row of the monthly aggregation satisfies
`marketProfit = (lclose - fclose) / fclose` and
`stratProfit = (lcurrentBalance - fcurrentBalance) / fcurrentBalance`, over
the bucket's first and last rows; a month bucket with exactly one row yields
`marketProfit = 0` and `stratProfit = 0`. -/
theorem monthly_profit_formula (monthOf : Nat → Nat) (jdf : List JointRow)
    (m : MonthRow) (hm : m ∈ profitPerMonth monthOf jdf) :
    m.marketProfit = (m.lclose - m.fclose) / m.fclose
    ∧ m.stratProfit = (m.lcurrentBalance - m.fcurrentBalance) / m.fcurrentBalance
    ∧ ((monthBucket monthOf jdf m.month).length = 1 →
        m.marketProfit = 0 ∧ m.stratProfit = 0) := by
  rw [profitPerMonth, List.mem_map] at hm
  obtain ⟨k, hk, rfl⟩ := hm
  refine ⟨rfl, rfl, fun h1 => ?_⟩
  have hmonth : (monthRow monthOf jdf k).month = k := rfl
  rw [hmonth] at h1
  obtain ⟨r, hr⟩ : ∃ r, monthBucket monthOf jdf k = [r] := by
    cases hg : monthBucket monthOf jdf k with
    | nil => rw [hg] at h1; simp at h1
    | cons a t =>
      cases t with
      | nil => exact ⟨a, rfl⟩
      | cons b t2 => rw [hg] at h1; simp at h1
  have hrow : monthRow monthOf jdf k =
      { month := k
        fcurrentBalance := r.currentBalance
        fclose := r.raw.candle.close
        lcurrentBalance := r.currentBalance
        lclose := r.raw.candle.close
        marketProfit := (r.raw.candle.close - r.raw.candle.close)
            / r.raw.candle.close
        stratProfit := (r.currentBalance - r.currentBalance)
            / r.currentBalance } := by
    rw [monthRow, hr]
    rfl
  rw [hrow]
  constructor
  · show (r.raw.candle.close - r.raw.candle.close) / r.raw.candle.close = 0
    rw [sub_self, zero_div]
  · show (r.currentBalance - r.currentBalance) / r.currentBalance = 0
    rw [sub_self, zero_div]

/-- A one-row joint table used to witness the monthly aggregation. -/
def wJdf : List JointRow :=
  [{ raw := ⟨0, ⟨0, 1, 1, 1, 1⟩, none, none, none, none⟩
     lastAction := none
     lastAmount := none
     lastBalance := none
     profit := none
     currentBalance := 1
     marketP := 1
     stratP := 1
     marketMax := 1
     stratMax := 1
     marketDrawdown := 0
     stratDrawdown := 0
     date := 0 }]

theorem monthly_profit_formula_witness :
    (monthRow (fun _ => 0) wJdf 0 ∈ profitPerMonth (fun _ => 0) wJdf
      ∧ (monthBucket (fun _ => 0) wJdf
          (monthRow (fun _ => 0) wJdf 0).month).length = 1)
    ∧ ((monthRow (fun _ => 0) wJdf 0).marketProfit
          = ((monthRow (fun _ => 0) wJdf 0).lclose
              - (monthRow (fun _ => 0) wJdf 0).fclose)
            / (monthRow (fun _ => 0) wJdf 0).fclose
      ∧ (monthRow (fun _ => 0) wJdf 0).stratProfit
          = ((monthRow (fun _ => 0) wJdf 0).lcurrentBalance
              - (monthRow (fun _ => 0) wJdf 0).fcurrentBalance)
            / (monthRow (fun _ => 0) wJdf 0).fcurrentBalance
      ∧ ((monthBucket (fun _ => 0) wJdf
            (monthRow (fun _ => 0) wJdf 0).month).length = 1 →
          (monthRow (fun _ => 0) wJdf 0).marketProfit = 0
            ∧ (monthRow (fun _ => 0) wJdf 0).stratProfit = 0)) := by
  have hpm : profitPerMonth (fun _ => 0) wJdf
      = [monthRow (fun _ => 0) wJdf 0] := by
    rw [profitPerMonth]
    rw [show (wJdf.map fun r => 0).dedup = [0] by rfl]
    rfl
  have hmem : monthRow (fun _ => 0) wJdf 0 ∈ profitPerMonth (fun _ => 0) wJdf := by
    rw [hpm]
    exact List.mem_singleton.mpr rfl
  have hlen : (monthBucket (fun _ => 0) wJdf
      (monthRow (fun _ => 0) wJdf 0).month).length = 1 := rfl
  exact ⟨⟨hmem, hlen⟩, monthly_profit_formula (fun _ => 0) wJdf _ hmem⟩

/-! ### Claim C10: create_windows -/

theorem windowsFrom_getElem (v : List α) (w s : Nat) (hs : 1 ≤ s) :
    ∀ (fuel i k : Nat), v.length ≤ fuel + i →
      (windowsFrom v w s fuel i)[k]?
        = if i + k * s + w < v.length
          then some ((v.drop (i + k * s)).take w) else none := by
  intro fuel
  induction fuel with
  | zero =>
    intro i k h
    rw [windowsFrom]
    rw [if_neg (by omega)]
    rfl
  | succ fuel ih =>
    intro i k h
    rw [windowsFrom]
    by_cases hc : i + w < v.length
    · rw [if_pos hc]
      cases k with
      | zero =>
        have hidx : i + 0 * s = i := by ring
        rw [hidx, if_pos hc]
        simp
      | succ k =>
        have hidx : i + (k + 1) * s = i + s + k * s := by ring
        rw [hidx, List.getElem?_cons_succ]
        exact ih (i + s) k (by omega)
    · rw [if_neg hc, if_neg (by omega)]
      rfl

theorem targetsFrom_getElem (t_col : List ℚ) (n w s : Nat) (hs : 1 ≤ s) :
    ∀ (fuel i k : Nat), n ≤ fuel + i →
      (targetsFrom t_col n w s fuel i)[k]?
        = if i + k * s + w < n
          then some (t_col.getD (i + k * s + w - 1) 0) else none := by
  intro fuel
  induction fuel with
  | zero =>
    intro i k h
    rw [targetsFrom]
    rw [if_neg (by omega)]
    rfl
  | succ fuel ih =>
    intro i k h
    rw [targetsFrom]
    by_cases hc : i + w < n
    · rw [if_pos hc]
      cases k with
      | zero =>
        have hidx : i + 0 * s = i := by ring
        rw [hidx, if_pos hc]
        simp
      | succ k =>
        have hidx : i + (k + 1) * s = i + s + k * s := by ring
        rw [hidx, List.getElem?_cons_succ]
        exact ih (i + s) k (by omega)
    · rw [if_neg hc, if_neg (by omega)]
      rfl

/-- **C10.** For `window_size ≥ 1` and `step_size ≥ 1`, `create_windows`
returns exactly the windows starting at `0, s, 2s, …` while `i + w < n`
holds strictly; window `k` is the `w` consecutive rows from `k*s`, the
`k`-th target is the target entry at row `k*s + w - 1`, and `n ≤ w` yields
an empty result (the window ending at the last row is never produced). -/
theorem create_windows_spec (v : List α) (t_col : List ℚ) (w s : Nat)
    (hw : 1 ≤ w) (hs : 1 ≤ s) :
    (∀ k, (create_windows v w s)[k]?
        = if k * s + w < v.length
          then some ((v.drop (k * s)).take w) else none)
    ∧ (∀ k, k * s + w < v.length → ((v.drop (k * s)).take w).length = w)
    ∧ (create_windows_target v t_col w s).1 = create_windows v w s
    ∧ (∀ k, ((create_windows_target v t_col w s).2)[k]?
        = if k * s + w < v.length
          then some (t_col.getD (k * s + w - 1) 0) else none)
    ∧ (v.length ≤ w → create_windows v w s = []) := by
  refine ⟨fun k => ?_, fun k hk => ?_, rfl, fun k => ?_, fun hvw => ?_⟩
  · rw [create_windows, windowsFrom_getElem v w s hs v.length 0 k (by omega)]
    rw [show 0 + k * s + w = k * s + w by omega, show 0 + k * s = k * s by omega]
  · rw [List.length_take, List.length_drop]
    omega
  · rw [show (create_windows_target v t_col w s).2
        = targetsFrom t_col v.length w s v.length 0 from rfl,
      targetsFrom_getElem t_col v.length w s hs v.length 0 k (by omega)]
    rw [show 0 + k * s + w = k * s + w by omega]
  · rw [create_windows]
    cases hv : v.length with
    | zero => rfl
    | succ n =>
      rw [windowsFrom]
      rw [if_neg (by omega)]

theorem create_windows_spec_witness :
    (1 ≤ 2 ∧ 1 ≤ 1)
    ∧ ((∀ k, (create_windows [10, 20, 30, 40] 2 1)[k]?
          = if k * 1 + 2 < ([10, 20, 30, 40] : List Nat).length
            then some ((([10, 20, 30, 40] : List Nat).drop (k * 1)).take 2)
            else none)
      ∧ (∀ k, k * 1 + 2 < ([10, 20, 30, 40] : List Nat).length
          → ((([10, 20, 30, 40] : List Nat).drop (k * 1)).take 2).length = 2)
      ∧ (create_windows_target [10, 20, 30, 40] [1, 2, 3, 4] 2 1).1
          = create_windows [10, 20, 30, 40] 2 1
      ∧ (∀ k, ((create_windows_target [10, 20, 30, 40] [1, 2, 3, 4] 2 1).2)[k]?
          = if k * 1 + 2 < ([10, 20, 30, 40] : List Nat).length
            then some (([1, 2, 3, 4] : List ℚ).getD (k * 1 + 2 - 1) 0)
            else none)
      ∧ (([10, 20, 30, 40] : List Nat).length ≤ 2
          → create_windows [10, 20, 30, 40] 2 1 = [])) :=
  ⟨⟨by decide, by decide⟩,
    create_windows_spec [10, 20, 30, 40] [1, 2, 3, 4] 2 1 (by decide) (by decide)⟩

end Gekkopy
